import Mathlib

/-!
Verification development for the hono-status-monitor metrics core.

The TypeScript sources are shallowly embedded:
JavaScript numbers are modelled as rationals (`ℚ`), timestamps as integers
(`ℤ`), `Math.round` as `fun q => ⌊q + 1/2⌋`, the `Infinity` sentinel used
for `minTime` as `⊤ : WithTop ℚ`, and JavaScript `Map`/object dictionaries
as association lists whose upsert keeps insertion order, matching the
iteration order of `Map`.  Fallible code (the injected health probe) is
modelled with `Except`.  Fields of a snapshot that are read directly from
the operating system (cpu sampling, memory, hostname, ...) enter the
embedding as explicit parameters or through the recorded histories, never
as hidden state.
-/

/-- JavaScript `Math.round`: round half-up, as used throughout the monitor. -/
def jsRound (q : ℚ) : ℤ := ⌊q + 1/2⌋

/-- The `Math.round(x * 100) / 100` idiom (round to 2 decimal places). -/
def jsRound2 (q : ℚ) : ℚ := (jsRound (q * 100) : ℚ) / 100

/-- The `Math.round(x * 10) / 10` idiom (round to 1 decimal place). -/
def jsRound1 (q : ℚ) : ℚ := (jsRound (q * 10) : ℚ) / 10

/-- Lookup in an association list, the model of `Map.get` / object indexing. -/
def lookupAssoc {κ β : Type} [DecidableEq κ] : List (κ × β) → κ → Option β
  | [], _ => none
  | (k', v) :: rest, k => if k' = k then some v else lookupAssoc rest k

/-- Update the (unique) entry of an association list in place, the model of
`Map.set` on an existing key: insertion order is preserved. -/
def updateAssoc {κ β : Type} [DecidableEq κ] : List (κ × β) → κ → (β → β) → List (κ × β)
  | [], _, _ => []
  | (k', v) :: rest, k, f =>
    if k' = k then (k', f v) :: rest else (k', v) :: updateAssoc rest k f

/-- `MetricDataPoint` from types.ts. -/
structure MetricDataPoint where
  timestamp : ℤ
  value : ℚ
deriving DecidableEq

/-- `RouteStats` from types.ts.  `minTime` starts at the `Infinity` sentinel,
modelled as `⊤ : WithTop ℚ`. -/
structure RouteStats where
  path : String
  method : String
  count : ℕ
  totalTime : ℚ
  avgTime : ℚ
  minTime : WithTop ℚ
  maxTime : ℚ
  errors : ℕ
  lastAccess : ℤ
deriving DecidableEq

/-- `ErrorEntry` from types.ts. -/
structure ErrorEntry where
  timestamp : ℤ
  path : String
  method : String
  status : ℕ
  message : String
deriving DecidableEq

/-- `PercentileData` from types.ts. -/
structure PercentileData where
  p50 : ℚ
  p95 : ℚ
  p99 : ℚ
  avg : ℚ
deriving DecidableEq

/-- `HealthCheckResult` from types.ts (the `details` payload is not read by
the monitor and is omitted). -/
structure HealthCheckResult where
  connected : Bool
  latencyMs : ℚ
  name : Option String
deriving DecidableEq

/-- `DatabaseStats` from types.ts. -/
structure DatabaseStats where
  connected : Bool
  poolSize : ℕ
  availableConnections : ℕ
  waitQueueSize : ℕ
  latencyMs : ℚ
  name : Option String
deriving DecidableEq

/-- `WorkerInfo` from types.ts. -/
structure WorkerInfo where
  pid : ℕ
  cpu : ℚ
  memoryMB : ℚ
  rps : ℚ
  totalRequests : ℕ
  responseTime : ℚ
deriving DecidableEq

/-- The `rateLimitStats` record of a snapshot. -/
structure RateLimitStats where
  blocked : ℕ
  total : ℕ
deriving DecidableEq

/-- The fields of `MetricsSnapshot` (types.ts) produced by the metrics core.
Fields that are plain reads of the host operating system (hostname, platform,
node version, heap sizes, load average, uptimes, gc, event loop lag) are
display-only and are not modelled; `cpu`, `responseTime` and `rps` are read
from the recorded histories exactly as in `getMetricsSnapshot`. -/
structure MetricsSnapshot where
  timestamp : ℤ
  cpu : ℚ
  memoryMB : ℚ
  responseTime : ℚ
  rps : ℚ
  statusCodes : List (String × ℕ)
  totalRequests : ℕ
  activeConnections : ℤ
  percentiles : PercentileData
  topRoutes : List RouteStats
  slowestRoutes : List RouteStats
  errorRoutes : List RouteStats
  recentErrors : List ErrorEntry
  database : DatabaseStats
  rateLimitStats : RateLimitStats
  errorRate : ℚ
  workers : List WorkerInfo
  workerCount : ℕ
deriving DecidableEq

/-- `ChartData` from types.ts. -/
structure ChartData where
  cpu : List MetricDataPoint
  memory : List MetricDataPoint
  heap : List MetricDataPoint
  loadAvg : List MetricDataPoint
  responseTime : List MetricDataPoint
  rps : List MetricDataPoint
  eventLoopLag : List MetricDataPoint
  errorRate : List MetricDataPoint
deriving DecidableEq

/-- The configuration fields of `StatusMonitorConfig` consulted by the
embedded operations. -/
structure MonitorConfig where
  normalizePath : String → String
  maxRecentErrors : ℕ
  maxRoutes : ℕ
  retentionSeconds : ℕ

/-- The mutable collection-side state of `createMonitor`. -/
structure MonitorState where
  requestCount : ℕ
  lastRequestCount : ℕ
  totalResponseTime : ℚ
  responseTimeCount : ℕ
  statusCodes : List (String × ℕ)
  totalRequests : ℕ
  activeConnections : ℤ
  routeStats : List (String × RouteStats)
  recentErrors : List ErrorEntry
  responseTimeSamples : List ℚ
  rateLimitBlocked : ℕ
  rateLimitTotal : ℕ
  cpuHistory : List MetricDataPoint
  memoryHistory : List MetricDataPoint
  heapHistory : List MetricDataPoint
  loadAvgHistory : List MetricDataPoint
  responseTimeHistory : List MetricDataPoint
  rpsHistory : List MetricDataPoint
  eventLoopLagHistory : List MetricDataPoint
  errorRateHistory : List MetricDataPoint

/-- The all-zero initial state of a freshly created monitor. -/
def initialState : MonitorState :=
  ⟨0, 0, 0, 0, [], 0, 0, [], [], [], 0, 0, [], [], [], [], [], [], [], []⟩

/-- `statusCodes[codeStr] = (statusCodes[codeStr] || 0) + 1`. -/
def bumpStatusCode (l : List (String × ℕ)) (k : String) : List (String × ℕ) :=
  match lookupAssoc l k with
  | some _ => updateAssoc l k (· + 1)
  | none => l ++ [(k, 1)]

/-- `trackRequest` from the core metrics service. -/
def trackRequest (cfg : MonitorConfig) (path method : String) (now : ℤ)
    (s : MonitorState) : MonitorState :=
  let s1 := { s with
    requestCount := s.requestCount + 1
    totalRequests := s.totalRequests + 1
    activeConnections := s.activeConnections + 1 }
  let normalizedPath := cfg.normalizePath path
  let key := method ++ ":" ++ normalizedPath
  match lookupAssoc s1.routeStats key with
  | some _ => s1
  | none =>
    { s1 with routeStats :=
        s1.routeStats ++ [(key, ⟨normalizedPath, method, 0, 0, 0, ⊤, 0, 0, now⟩)] }

/-- The in-place mutation of a `RouteStats` record performed by
`trackRequestComplete` when the route entry exists. -/
def updateRouteOnComplete (durationMs : ℚ) (statusCode : ℕ) (now : ℤ)
    (r : RouteStats) : RouteStats :=
  let count := r.count + 1
  let totalTime := r.totalTime + durationMs
  { r with
    count := count
    totalTime := totalTime
    avgTime := totalTime / (count : ℚ)
    minTime := min r.minTime (durationMs : WithTop ℚ)
    maxTime := max r.maxTime durationMs
    lastAccess := now
    errors := if 400 ≤ statusCode then r.errors + 1 else r.errors }

/-- `trackRequestComplete` from the core metrics service. -/
def trackRequestComplete (cfg : MonitorConfig) (path method : String)
    (durationMs : ℚ) (statusCode : ℕ) (now : ℤ) (s : MonitorState) : MonitorState :=
  let s1 := { s with
    activeConnections := max 0 (s.activeConnections - 1)
    totalResponseTime := s.totalResponseTime + durationMs
    responseTimeCount := s.responseTimeCount + 1
    responseTimeSamples := s.responseTimeSamples ++ [durationMs]
    statusCodes := bumpStatusCode s.statusCodes (toString statusCode) }
  let normalizedPath := cfg.normalizePath path
  let key := method ++ ":" ++ normalizedPath
  match lookupAssoc s1.routeStats key with
  | none => s1
  | some _ =>
    let s2 := { s1 with
      routeStats := updateAssoc s1.routeStats key
        (updateRouteOnComplete durationMs statusCode now) }
    if 400 ≤ statusCode then
      let entry : ErrorEntry :=
        { timestamp := now, path := normalizedPath, method := method,
          status := statusCode,
          message := method ++ " " ++ normalizedPath ++ " returned "
            ++ toString statusCode }
      { s2 with recentErrors := (entry :: s2.recentErrors).take cfg.maxRecentErrors }
    else s2

/-- `trackRateLimitEvent` from the core metrics service. -/
def trackRateLimitEvent (blocked : Bool) (s : MonitorState) : MonitorState :=
  { s with
    rateLimitTotal := s.rateLimitTotal + 1
    rateLimitBlocked := if blocked then s.rateLimitBlocked + 1 else s.rateLimitBlocked }

/-- `calculatePercentiles` from the core metrics service: sort ascending,
nearest-rank indices `floor(len * q)`, two-decimal rounding. -/
def calculatePercentiles (samples : List ℚ) : PercentileData :=
  if samples.length = 0 then ⟨0, 0, 0, 0⟩
  else
    let sorted := samples.insertionSort (· ≤ ·)
    let len := sorted.length
    let p50Index := ⌊(len : ℚ) * 0.5⌋₊
    let p95Index := ⌊(len : ℚ) * 0.95⌋₊
    let p99Index := ⌊(len : ℚ) * 0.99⌋₊
    let avg := sorted.sum / (len : ℚ)
    ⟨jsRound2 (sorted.getD p50Index 0),
     jsRound2 (sorted.getD p95Index 0),
     jsRound2 (sorted.getD (min p99Index (len - 1)) 0),
     jsRound2 avg⟩

/-- The `RouteStats` values of the route table, in `Map` insertion order
(`Array.from(routeStats.values())`). -/
def routeValues (s : MonitorState) : List RouteStats :=
  s.routeStats.map (·.2)

/-- Stable descending sort by `count` (`(a, b) => b.count - a.count`). -/
def sortByCountDesc (l : List RouteStats) : List RouteStats :=
  l.insertionSort (fun a b => b.count ≤ a.count)

/-- Stable descending sort by `avgTime` (`(a, b) => b.avgTime - a.avgTime`). -/
def sortByAvgDesc (l : List RouteStats) : List RouteStats :=
  l.insertionSort (fun a b => b.avgTime ≤ a.avgTime)

/-- Stable descending sort by `errors` (`(a, b) => b.errors - a.errors`). -/
def sortByErrorsDesc (l : List RouteStats) : List RouteStats :=
  l.insertionSort (fun a b => b.errors ≤ a.errors)

/-- `getTopRoutes` from the core metrics service. -/
def getTopRoutes (cfg : MonitorConfig) (s : MonitorState) : List RouteStats :=
  (sortByCountDesc (routeValues s)).take cfg.maxRoutes

/-- `getSlowestRoutes` from the core metrics service. -/
def getSlowestRoutes (cfg : MonitorConfig) (s : MonitorState) : List RouteStats :=
  (sortByAvgDesc ((routeValues s).filter (fun r => 0 < r.count))).take cfg.maxRoutes

/-- `getErrorRoutes` from the core metrics service. -/
def getErrorRoutes (cfg : MonitorConfig) (s : MonitorState) : List RouteStats :=
  (sortByErrorsDesc ((routeValues s).filter (fun r => 0 < r.errors))).take cfg.maxRoutes

/-- The total of `r.errors` over all route entries, as summed by `getErrorRate`. -/
def totalRouteErrors (s : MonitorState) : ℕ :=
  (s.routeStats.map (fun p => p.2.errors)).sum

/-- `getErrorRate` from the core metrics service. -/
def getErrorRate (s : MonitorState) : ℚ :=
  if s.totalRequests = 0 then 0
  else (jsRound ((totalRouteErrors s : ℚ) / (s.totalRequests : ℚ) * 10000) : ℚ) / 100

/-- `getDatabaseStats`: the injected async health probe either yields a
`HealthCheckResult` or throws/rejects (`Except.error`); a failure is caught
and converted to a disconnected all-zero record.  `measuredLatency` is the
latency the builder itself measured around the probe call, used when the
probe reports a falsy (zero) latency (`result.latencyMs || dbLatency`). -/
def getDatabaseStats (probe : Except Unit HealthCheckResult)
    (measuredLatency : ℚ) : DatabaseStats :=
  match probe with
  | .error _ => ⟨false, 0, 0, 0, 0, none⟩
  | .ok r =>
    ⟨r.connected, 10, if r.connected then 10 else 0, 0,
     if r.latencyMs = 0 then measuredLatency else r.latencyMs, r.name⟩

/-- The most recent value of a history series, or 0 if it is empty
(`history[history.length - 1].value`). -/
def lastValue (h : List MetricDataPoint) : ℚ :=
  match h.getLast? with
  | some p => p.value
  | none => 0

/-- `getMetricsSnapshot` from the core metrics service (its locally collected
part, before any cluster aggregation).  `now` is `Date.now()`, `memoryMB` the
operating-system memory reading, `probe` the awaited health-probe outcome and
`measuredLatency` the builder-measured probe latency. -/
def getMetricsSnapshot (cfg : MonitorConfig) (s : MonitorState) (now : ℤ)
    (memoryMB : ℚ) (probe : Except Unit HealthCheckResult)
    (measuredLatency : ℚ) : MetricsSnapshot :=
  { timestamp := now
    cpu := lastValue s.cpuHistory
    memoryMB := memoryMB
    responseTime := lastValue s.responseTimeHistory
    rps := lastValue s.rpsHistory
    statusCodes := s.statusCodes
    totalRequests := s.totalRequests
    activeConnections := s.activeConnections
    percentiles := calculatePercentiles s.responseTimeSamples
    topRoutes := getTopRoutes cfg s
    slowestRoutes := getSlowestRoutes cfg s
    errorRoutes := getErrorRoutes cfg s
    recentErrors := s.recentErrors
    database := getDatabaseStats probe measuredLatency
    rateLimitStats := ⟨s.rateLimitBlocked, s.rateLimitTotal⟩
    errorRate := getErrorRate s
    workers := []
    workerCount := 0 }

/-- `addToHistory` from the core metrics service: push a point stamped `now`,
then shift from the front while the oldest point is older than
`now - retentionSeconds * 1000`. -/
def addToHistory (retentionSeconds : ℕ) (now : ℤ)
    (history : List MetricDataPoint) (value : ℚ) : List MetricDataPoint :=
  let pushed := history ++ [⟨now, value⟩]
  let cutoff := now - (retentionSeconds : ℤ) * 1000
  pushed.dropWhile (fun p => decide (p.timestamp < cutoff))

/-- The `Partial<MetricsSnapshot>` fields of a worker report that the master
aggregator reads.  Every read in cluster.ts is guarded with `|| 0` (or an
empty-object guard), so an absent field behaves exactly like the zero/empty
value and the partial record is modelled as a total one. -/
structure WorkerMetrics where
  rps : ℚ
  totalRequests : ℕ
  activeConnections : ℤ
  cpu : ℚ
  responseTime : ℚ
  errorRate : ℚ
  memoryMB : ℚ
  statusCodes : List (String × ℕ)
  rateLimitBlocked : ℕ
  rateLimitTotal : ℕ
  topRoutes : List RouteStats
  slowestRoutes : List RouteStats
  errorRoutes : List RouteStats
deriving DecidableEq

/-- One entry of the master's `WorkerMetricsStore`, keyed by worker id. -/
structure WorkerRecord where
  workerId : ℕ
  pid : ℕ
  metrics : WorkerMetrics
  charts : ChartData
  lastUpdate : ℤ
deriving DecidableEq

/-- `WorkerMetricsMessage` from types.ts (the fixed `type` tag is implicit). -/
structure WorkerMetricsMessage where
  workerId : ℕ
  pid : ℕ
  metrics : WorkerMetrics
  charts : ChartData
deriving DecidableEq

/-- `WORKER_TIMEOUT_MS` from cluster.ts. -/
def workerTimeoutMs : ℤ := 10000

/-- `updateWorkerMetrics` from cluster.ts: upsert the record for the message's
worker id, stamping `lastUpdate = Date.now()`. -/
def updateWorkerMetrics (msg : WorkerMetricsMessage) (now : ℤ)
    (store : List WorkerRecord) : List WorkerRecord :=
  let rec' : WorkerRecord := ⟨msg.workerId, msg.pid, msg.metrics, msg.charts, now⟩
  if store.any (fun w => w.workerId == msg.workerId) then
    store.map (fun w => if w.workerId = msg.workerId then rec' else w)
  else store ++ [rec']

/-- `cleanupStaleWorkers` from cluster.ts: delete every record with
`now - lastUpdate > WORKER_TIMEOUT_MS`. -/
def cleanupStaleWorkers (now : ℤ) (store : List WorkerRecord) : List WorkerRecord :=
  store.filter (fun w => decide (now - w.lastUpdate ≤ workerTimeoutMs))

/-- `getWorkerInfo` from cluster.ts. -/
def getWorkerInfo (now : ℤ) (store : List WorkerRecord) : List WorkerInfo :=
  (cleanupStaleWorkers now store).map (fun w =>
    ⟨w.pid, w.metrics.cpu, w.metrics.memoryMB, w.metrics.rps,
     w.metrics.totalRequests, w.metrics.responseTime⟩)

/-- The aggregator's `workerCount` getter from cluster.ts. -/
def aggregatorWorkerCount (now : ℤ) (store : List WorkerRecord) : ℕ :=
  (cleanupStaleWorkers now store).length

/-- The string key `method:path` under which `aggregateMetrics` merges route
entries. -/
def mergeKey (r : RouteStats) : String := r.method ++ ":" ++ r.path

/-- The duplicate-merge of `aggregateMetrics`: sum `count`, `totalTime` and
`errors`, recompute `avgTime`, take `min(minTime)`, `max(maxTime)` and
`max(lastAccess)`. -/
def combineRouteStats (e r : RouteStats) : RouteStats :=
  let count := e.count + r.count
  let totalTime := e.totalTime + r.totalTime
  { e with
    count := count
    totalTime := totalTime
    avgTime := totalTime / (count : ℚ)
    minTime := min e.minTime r.minTime
    maxTime := max e.maxTime r.maxTime
    errors := e.errors + r.errors
    lastAccess := max e.lastAccess r.lastAccess }

/-- One step of the `routeMap` fold in `aggregateMetrics`: merge into the
existing entry for the key, or insert a copy of the route. -/
def mergeRouteInto (acc : List (String × RouteStats)) (r : RouteStats) :
    List (String × RouteStats) :=
  let k := mergeKey r
  match lookupAssoc acc k with
  | some _ => updateAssoc acc k (fun e => combineRouteStats e r)
  | none => acc ++ [(k, r)]

/-- The concatenation `[...topRoutes, ...slowestRoutes, ...errorRoutes]` of a
worker's three reported ranked lists. -/
def workerAllRoutes (w : WorkerRecord) : List RouteStats :=
  w.metrics.topRoutes ++ w.metrics.slowestRoutes ++ w.metrics.errorRoutes

/-- The `routeMap` built by `aggregateMetrics` over all active workers. -/
def mergedRouteMap (workers : List WorkerRecord) : List (String × RouteStats) :=
  ((workers.map workerAllRoutes).flatten).foldl mergeRouteInto []

/-- `aggregatedStatusCodes[code] = (aggregatedStatusCodes[code] || 0) + count`. -/
def addStatusCount (l : List (String × ℕ)) (k : String) (c : ℕ) : List (String × ℕ) :=
  match lookupAssoc l k with
  | some _ => updateAssoc l k (· + c)
  | none => l ++ [(k, c)]

/-- `aggregateMetrics` from cluster.ts: evict stale workers, then fold the
remaining reports into the base snapshot (sum / average / route merge). -/
def aggregateMetrics (now : ℤ) (store : List WorkerRecord)
    (baseSnapshot : MetricsSnapshot) : MetricsSnapshot :=
  let workers := cleanupStaleWorkers now store
  if workers.length = 0 then baseSnapshot
  else
    let totalRps := (workers.map (fun w => w.metrics.rps)).sum
    let totalRequests := (workers.map (fun w => w.metrics.totalRequests)).sum
    let totalActiveConnections := (workers.map (fun w => w.metrics.activeConnections)).sum
    let totalErrorRate := (workers.map (fun w => w.metrics.errorRate)).sum
    let totalCpu := (workers.map (fun w => w.metrics.cpu)).sum
    let totalResponseTime := (workers.map (fun w => w.metrics.responseTime)).sum
    let workerCount := workers.length
    let aggregatedStatusCodes := workers.foldl
      (fun acc w => w.metrics.statusCodes.foldl (fun a p => addStatusCount a p.1 p.2) acc) []
    let totalRateLimitBlocked := (workers.map (fun w => w.metrics.rateLimitBlocked)).sum
    let totalRateLimitTotal := (workers.map (fun w => w.metrics.rateLimitTotal)).sum
    let routeMap := mergedRouteMap workers
    let avgCpu := if 0 < workerCount then totalCpu / (workerCount : ℚ) else baseSnapshot.cpu
    let avgResponseTime :=
      if 0 < workerCount then totalResponseTime / (workerCount : ℚ) else baseSnapshot.responseTime
    let avgErrorRate :=
      if 0 < workerCount then totalErrorRate / (workerCount : ℚ) else baseSnapshot.errorRate
    let allRoutes := routeMap.map (·.2)
    let sortedByCount := sortByCountDesc allRoutes
    let topRoutes := sortedByCount.take 10
    let slowestRoutes := (sortByAvgDesc (sortedByCount.filter (fun r => 0 < r.count))).take 10
    let errorRoutes := (sortByErrorsDesc (sortedByCount.filter (fun r => 0 < r.errors))).take 10
    { baseSnapshot with
      cpu := jsRound1 avgCpu
      responseTime := jsRound2 avgResponseTime
      rps := totalRps
      totalRequests := totalRequests
      activeConnections := totalActiveConnections
      errorRate := jsRound2 avgErrorRate
      statusCodes :=
        if aggregatedStatusCodes.length ≠ 0 then aggregatedStatusCodes
        else baseSnapshot.statusCodes
      rateLimitStats := ⟨totalRateLimitBlocked, totalRateLimitTotal⟩
      topRoutes := topRoutes
      slowestRoutes := slowestRoutes
      errorRoutes := errorRoutes
      workers := getWorkerInfo now store
      workerCount := workerCount }

/-- `timeMap.set(point.timestamp, { sum: point.value, count: 1 })` for a base
point: an existing entry at the same timestamp is overwritten. -/
def setChartPoint (timeMap : List (ℤ × ℚ × ℕ)) (p : MetricDataPoint) :
    List (ℤ × ℚ × ℕ) :=
  match lookupAssoc timeMap p.timestamp with
  | some _ => updateAssoc timeMap p.timestamp (fun _ => (p.value, 1))
  | none => timeMap ++ [(p.timestamp, p.value, 1)]

/-- Merging a worker point into the time map: accumulate `sum` and `count`
at an existing timestamp, otherwise insert a fresh entry. -/
def mergeChartPoint (timeMap : List (ℤ × ℚ × ℕ)) (p : MetricDataPoint) :
    List (ℤ × ℚ × ℕ) :=
  match lookupAssoc timeMap p.timestamp with
  | some _ => updateAssoc timeMap p.timestamp (fun sc => (sc.1 + p.value, sc.2 + 1))
  | none => timeMap ++ [(p.timestamp, p.value, 1)]

/-- `mergeChartData` from cluster.ts: merge points by exact timestamp, combine
by sum or average, round to two decimals and sort ascending by timestamp. -/
def mergeChartData (base : List MetricDataPoint)
    (workerSeries : List (List MetricDataPoint)) (isSum : Bool) :
    List MetricDataPoint :=
  let m1 := base.foldl setChartPoint []
  let m2 := workerSeries.foldl (fun acc series => series.foldl mergeChartPoint acc) m1
  let result := m2.map (fun e =>
    (⟨e.1, jsRound2 (if isSum then e.2.1 else e.2.1 / (e.2.2 : ℚ))⟩ : MetricDataPoint))
  result.insertionSort (fun a b => a.timestamp ≤ b.timestamp)

/-- `aggregateCharts` from cluster.ts. -/
def aggregateCharts (now : ℤ) (store : List WorkerRecord)
    (baseCharts : ChartData) : ChartData :=
  let workers := cleanupStaleWorkers now store
  if workers.length = 0 then baseCharts
  else
    { cpu := mergeChartData baseCharts.cpu (workers.map (fun w => w.charts.cpu)) false
      memory := mergeChartData baseCharts.memory (workers.map (fun w => w.charts.memory)) false
      heap := mergeChartData baseCharts.heap (workers.map (fun w => w.charts.heap)) false
      loadAvg := mergeChartData baseCharts.loadAvg (workers.map (fun w => w.charts.loadAvg)) false
      responseTime :=
        mergeChartData baseCharts.responseTime (workers.map (fun w => w.charts.responseTime)) false
      rps := mergeChartData baseCharts.rps (workers.map (fun w => w.charts.rps)) true
      eventLoopLag :=
        mergeChartData baseCharts.eventLoopLag (workers.map (fun w => w.charts.eventLoopLag)) false
      errorRate :=
        mergeChartData baseCharts.errorRate (workers.map (fun w => w.charts.errorRate)) false }

/-- One completed request event as delivered by the middleware: a
`trackRequest` at `startTime` followed by the matching `trackRequestComplete`
at `endTime` with the measured duration and response status. -/
structure ReqEvent where
  path : String
  method : String
  durationMs : ℚ
  statusCode : ℕ
  startTime : ℤ
  endTime : ℤ

/-- Deliver one completed request event to the monitor. -/
def applyRequestEvent (cfg : MonitorConfig) (s : MonitorState) (e : ReqEvent) :
    MonitorState :=
  trackRequestComplete cfg e.path e.method e.durationMs e.statusCode e.endTime
    (trackRequest cfg e.path e.method e.startTime s)

/-- Deliver a sequence of completed request events to a fresh monitor. -/
def runRequestEvents (cfg : MonitorConfig) (events : List ReqEvent) : MonitorState :=
  events.foldl (applyRequestEvent cfg) initialState

/-- An individual tracking call, not necessarily matched: either a
`trackRequest` or a `trackRequestComplete`. -/
inductive MonitorEvent where
  | reqStart (path method : String) (now : ℤ)
  | reqComplete (path method : String) (durationMs : ℚ) (statusCode : ℕ) (now : ℤ)

/-- Deliver one tracking call to the monitor. -/
def applyMonitorEvent (cfg : MonitorConfig) (s : MonitorState) :
    MonitorEvent → MonitorState
  | .reqStart p m t => trackRequest cfg p m t s
  | .reqComplete p m d c t => trackRequestComplete cfg p m d c t s

/-- Deliver a sequence of tracking calls (matched or not) to a fresh monitor. -/
def runMonitorEvents (cfg : MonitorConfig) (events : List MonitorEvent) : MonitorState :=
  events.foldl (applyMonitorEvent cfg) initialState

/-- The sum of `count` over all entries of the route table. -/
def sumRouteCounts (l : List (String × RouteStats)) : ℕ :=
  (l.map (fun p => p.2.count)).sum

lemma lookupAssoc_append_single_of_none {κ β : Type} [DecidableEq κ]
    {l : List (κ × β)} {k : κ} (h : lookupAssoc l k = none) (v : β) :
    lookupAssoc (l ++ [(k, v)]) k = some v := by
  induction l with
  | nil => simp [lookupAssoc]
  | cons hd tl ih =>
    obtain ⟨k', v'⟩ := hd
    by_cases hk : k' = k
    · simp [lookupAssoc, hk] at h
    · simp only [lookupAssoc, hk, if_neg hk, List.cons_append] at h ⊢
      exact ih h

lemma activeConnections_trackRequest (cfg : MonitorConfig) (p m : String)
    (t : ℤ) (s : MonitorState) :
    (trackRequest cfg p m t s).activeConnections = s.activeConnections + 1 := by
  simp only [trackRequest]
  split <;> rfl

lemma activeConnections_trackRequestComplete (cfg : MonitorConfig) (p m : String)
    (d : ℚ) (c : ℕ) (t : ℤ) (s : MonitorState) :
    (trackRequestComplete cfg p m d c t s).activeConnections =
      max 0 (s.activeConnections - 1) := by
  simp only [trackRequestComplete]
  split
  · rfl
  · split <;> rfl

lemma totalRequests_trackRequest (cfg : MonitorConfig) (p m : String)
    (t : ℤ) (s : MonitorState) :
    (trackRequest cfg p m t s).totalRequests = s.totalRequests + 1 := by
  simp only [trackRequest]
  split <;> rfl

lemma totalRequests_trackRequestComplete (cfg : MonitorConfig) (p m : String)
    (d : ℚ) (c : ℕ) (t : ℤ) (s : MonitorState) :
    (trackRequestComplete cfg p m d c t s).totalRequests = s.totalRequests := by
  simp only [trackRequestComplete]
  split
  · rfl
  · split <;> rfl

lemma routeStats_trackRequest_lookup (cfg : MonitorConfig) (p m : String)
    (t : ℤ) (s : MonitorState) :
    (lookupAssoc (trackRequest cfg p m t s).routeStats
      (m ++ ":" ++ cfg.normalizePath p)).isSome := by
  simp only [trackRequest]
  split
  · next h => simp_all
  · next h => simp_all [lookupAssoc_append_single_of_none h]

lemma sumRouteCounts_trackRequest (cfg : MonitorConfig) (p m : String)
    (t : ℤ) (s : MonitorState) :
    sumRouteCounts (trackRequest cfg p m t s).routeStats =
      sumRouteCounts s.routeStats := by
  simp only [trackRequest]
  split
  · rfl
  · simp [sumRouteCounts]

lemma count_updateRouteOnComplete (d : ℚ) (c : ℕ) (t : ℤ) (r : RouteStats) :
    (updateRouteOnComplete d c t r).count = r.count + 1 := rfl

lemma sumRouteCounts_updateAssoc (d : ℚ) (c : ℕ) (t : ℤ) :
    ∀ (l : List (String × RouteStats)) (k : String),
      (lookupAssoc l k).isSome →
      sumRouteCounts (updateAssoc l k (updateRouteOnComplete d c t)) =
        sumRouteCounts l + 1 := by
  intro l
  induction l with
  | nil => intro k h; simp [lookupAssoc] at h
  | cons hd tl ih =>
    intro k h
    obtain ⟨k', v⟩ := hd
    by_cases hk : k' = k
    · simp [updateAssoc, hk, sumRouteCounts, count_updateRouteOnComplete]
      ring
    · simp only [lookupAssoc, if_neg hk] at h
      simp only [updateAssoc, if_neg hk]
      have := ih k h
      simp [sumRouteCounts] at this ⊢
      omega

lemma sumRouteCounts_trackRequestComplete (cfg : MonitorConfig) (p m : String)
    (d : ℚ) (c : ℕ) (t : ℤ) (s : MonitorState)
    (h : (lookupAssoc s.routeStats (m ++ ":" ++ cfg.normalizePath p)).isSome) :
    sumRouteCounts (trackRequestComplete cfg p m d c t s).routeStats =
      sumRouteCounts s.routeStats + 1 := by
  simp only [trackRequestComplete]
  split
  · next heq => rw [heq] at h; simp at h
  · split
    · exact sumRouteCounts_updateAssoc d c t s.routeStats _ h
    · exact sumRouteCounts_updateAssoc d c t s.routeStats _ h

lemma applyRequestEvent_sum_totalRequests (cfg : MonitorConfig) (s : MonitorState)
    (e : ReqEvent) :
    sumRouteCounts (applyRequestEvent cfg s e).routeStats =
        sumRouteCounts s.routeStats + 1 ∧
      (applyRequestEvent cfg s e).totalRequests = s.totalRequests + 1 := by
  constructor
  · rw [applyRequestEvent,
      sumRouteCounts_trackRequestComplete cfg e.path e.method e.durationMs
        e.statusCode e.endTime _ (routeStats_trackRequest_lookup cfg e.path e.method
          e.startTime s),
      sumRouteCounts_trackRequest]
  · rw [applyRequestEvent, totalRequests_trackRequestComplete,
      totalRequests_trackRequest]

lemma foldl_requestEvents_invariant (cfg : MonitorConfig) :
    ∀ (events : List ReqEvent) (s : MonitorState),
      sumRouteCounts s.routeStats = s.totalRequests →
      sumRouteCounts ((events.foldl (applyRequestEvent cfg) s).routeStats) =
        (events.foldl (applyRequestEvent cfg) s).totalRequests := by
  intro events
  induction events with
  | nil => intro s h; exact h
  | cons e tl ih =>
    intro s h
    simp only [List.foldl_cons]
    apply ih
    obtain ⟨h1, h2⟩ := applyRequestEvent_sum_totalRequests cfg s e
    rw [h1, h2, h]

/-- C1: for any sequence of completed request events delivered through
`trackRequest`/`trackRequestComplete`, the sum of `count` over all entries of
the route analytics table equals the `totalRequests` counter reported by the
snapshot. -/
theorem claim_C1 (cfg : MonitorConfig) (events : List ReqEvent) (now : ℤ)
    (memoryMB : ℚ) (probe : Except Unit HealthCheckResult) (measuredLatency : ℚ) :
    sumRouteCounts (runRequestEvents cfg events).routeStats =
      (getMetricsSnapshot cfg (runRequestEvents cfg events) now memoryMB probe
        measuredLatency).totalRequests :=
  foldl_requestEvents_invariant cfg events initialState rfl

/-- C7: the `errorRate` field of a snapshot equals the summed route error
counts divided by `totalRequests`, times 100, rounded to two decimal places
(and is 0 when there have been no requests). -/
theorem claim_C7 (cfg : MonitorConfig) (s : MonitorState) (now : ℤ)
    (memoryMB : ℚ) (probe : Except Unit HealthCheckResult) (measuredLatency : ℚ) :
    (getMetricsSnapshot cfg s now memoryMB probe measuredLatency).errorRate =
      if s.totalRequests = 0 then 0
      else jsRound2 ((totalRouteErrors s : ℚ) / (s.totalRequests : ℚ) * 100) := by
  show getErrorRate s = _
  unfold getErrorRate jsRound2
  split
  · rfl
  · have harg : (totalRouteErrors s : ℚ) / (s.totalRequests : ℚ) * 100 * 100 =
        (totalRouteErrors s : ℚ) / (s.totalRequests : ℚ) * 10000 := by ring
    rw [harg]

/-- C9: when the injected health probe throws or rejects, `snapshot()` still
completes and reports the probe result as connected `false` with zero
latency; the failure is not propagated. -/
theorem claim_C9 (cfg : MonitorConfig) (s : MonitorState) (now : ℤ)
    (memoryMB : ℚ) (measuredLatency : ℚ) :
    (getMetricsSnapshot cfg s now memoryMB (Except.error ()) measuredLatency).database.connected
        = false ∧
      (getMetricsSnapshot cfg s now memoryMB (Except.error ()) measuredLatency).database.latencyMs
        = 0 ∧
      (getMetricsSnapshot cfg s now memoryMB (Except.error ()) measuredLatency).database
        = ⟨false, 0, 0, 0, 0, none⟩ :=
  ⟨rfl, rfl, rfl⟩

lemma activeConnections_applyMonitorEvent (cfg : MonitorConfig) (s : MonitorState)
    (e : MonitorEvent) (h : 0 ≤ s.activeConnections) :
    0 ≤ (applyMonitorEvent cfg s e).activeConnections := by
  cases e with
  | reqStart p m t =>
    rw [applyMonitorEvent, activeConnections_trackRequest]
    linarith
  | reqComplete p m d c t =>
    rw [applyMonitorEvent, activeConnections_trackRequestComplete]
    exact le_max_left 0 _

lemma foldl_monitorEvents_nonneg (cfg : MonitorConfig) :
    ∀ (events : List MonitorEvent) (s : MonitorState),
      0 ≤ s.activeConnections →
      0 ≤ (events.foldl (applyMonitorEvent cfg) s).activeConnections := by
  intro events
  induction events with
  | nil => intro s h; exact h
  | cons e tl ih =>
    intro s h
    simp only [List.foldl_cons]
    exact ih _ (activeConnections_applyMonitorEvent cfg s e h)

/-- C10: after any sequence of `trackRequest` / `trackRequestComplete` calls,
matched or not, the `activeConnections` counter is never negative. -/
theorem claim_C10 (cfg : MonitorConfig) (events : List MonitorEvent) :
    0 ≤ (runMonitorEvents cfg events).activeConnections :=
  foldl_monitorEvents_nonneg cfg events initialState le_rfl

lemma cleanupStaleWorkers_idem (now : ℤ) (store : List WorkerRecord) :
    cleanupStaleWorkers now (cleanupStaleWorkers now store) =
      cleanupStaleWorkers now store := by
  simp [cleanupStaleWorkers, List.filter_filter]

lemma aggregateMetrics_cleanup (now : ℤ) (store : List WorkerRecord)
    (base : MetricsSnapshot) :
    aggregateMetrics now (cleanupStaleWorkers now store) base =
      aggregateMetrics now store base := by
  simp only [aggregateMetrics, getWorkerInfo, cleanupStaleWorkers_idem]

lemma aggregateCharts_cleanup (now : ℤ) (store : List WorkerRecord)
    (charts : ChartData) :
    aggregateCharts now (cleanupStaleWorkers now store) charts =
      aggregateCharts now store charts := by
  simp only [aggregateCharts, cleanupStaleWorkers_idem]

lemma getWorkerInfo_cleanup (now : ℤ) (store : List WorkerRecord) :
    getWorkerInfo now (cleanupStaleWorkers now store) = getWorkerInfo now store := by
  simp only [getWorkerInfo, cleanupStaleWorkers_idem]

lemma stale_not_mem_cleanup (now : ℤ) (store : List WorkerRecord)
    (w : WorkerRecord) (hstale : workerTimeoutMs < now - w.lastUpdate) :
    w ∉ cleanupStaleWorkers now store := by
  intro hmem
  rw [cleanupStaleWorkers, List.mem_filter] at hmem
  have := of_decide_eq_true hmem.2
  omega

/-- C3: every read of the cluster aggregator (`aggregateMetrics`,
`aggregateCharts`, `getWorkerInfo` and the `workerCount` getter) first evicts
every worker record whose last report is older than 10 000 ms: a stale worker
is absent from the evicted roster, and each read computes the same result on
the evicted store as on the raw store, so a stale worker never contributes. -/
theorem claim_C3 (now : ℤ) (store : List WorkerRecord) (base : MetricsSnapshot)
    (charts : ChartData) (w : WorkerRecord) (_hmem : w ∈ store)
    (hstale : workerTimeoutMs < now - w.lastUpdate) :
    w ∉ cleanupStaleWorkers now store ∧
      aggregateMetrics now store base =
        aggregateMetrics now (cleanupStaleWorkers now store) base ∧
      aggregateCharts now store charts =
        aggregateCharts now (cleanupStaleWorkers now store) charts ∧
      getWorkerInfo now store = getWorkerInfo now (cleanupStaleWorkers now store) ∧
      aggregatorWorkerCount now store = (cleanupStaleWorkers now store).length :=
  ⟨stale_not_mem_cleanup now store w hstale,
   (aggregateMetrics_cleanup now store base).symm,
   (aggregateCharts_cleanup now store charts).symm,
   (getWorkerInfo_cleanup now store).symm,
   rfl⟩

/-- All-zero worker metrics, used as concrete witness data. -/
def zeroWorkerMetrics : WorkerMetrics := ⟨0, 0, 0, 0, 0, 0, 0, [], 0, 0, [], [], []⟩

/-- Empty chart bundle, used as concrete witness data. -/
def emptyChartData : ChartData := ⟨[], [], [], [], [], [], [], []⟩

/-- All-zero percentile set. -/
def zeroPercentiles : PercentileData := ⟨0, 0, 0, 0⟩

/-- A concrete base snapshot, used as witness data. -/
def sampleSnapshot : MetricsSnapshot :=
  ⟨0, 0, 0, 0, 0, [], 0, 0, zeroPercentiles, [], [], [], [],
   ⟨true, 10, 10, 0, 0, none⟩, ⟨0, 0⟩, 0, [], 0⟩

/-- A worker record whose last report is at time 0, used as witness data. -/
def sampleStaleWorker : WorkerRecord := ⟨1, 101, zeroWorkerMetrics, emptyChartData, 0⟩

theorem claim_C3_witness :
    sampleStaleWorker ∈ [sampleStaleWorker] ∧
      workerTimeoutMs < 20000 - sampleStaleWorker.lastUpdate ∧
      (sampleStaleWorker ∉ cleanupStaleWorkers 20000 [sampleStaleWorker] ∧
        aggregateMetrics 20000 [sampleStaleWorker] sampleSnapshot =
          aggregateMetrics 20000 (cleanupStaleWorkers 20000 [sampleStaleWorker])
            sampleSnapshot ∧
        aggregateCharts 20000 [sampleStaleWorker] emptyChartData =
          aggregateCharts 20000 (cleanupStaleWorkers 20000 [sampleStaleWorker])
            emptyChartData ∧
        getWorkerInfo 20000 [sampleStaleWorker] =
          getWorkerInfo 20000 (cleanupStaleWorkers 20000 [sampleStaleWorker]) ∧
        aggregatorWorkerCount 20000 [sampleStaleWorker] =
          (cleanupStaleWorkers 20000 [sampleStaleWorker]).length) :=
  ⟨List.mem_singleton.mpr rfl, by decide,
   claim_C3 20000 [sampleStaleWorker] sampleSnapshot emptyChartData
     sampleStaleWorker (List.mem_singleton.mpr rfl) (by decide)⟩

/-- C4: with exactly two fresh workers reporting `rps` 10/20, `cpu` 20/10 and
`totalRequests` 100/200, the aggregated snapshot over any base snapshot has
`rps = 30` (summed), `cpu = 15` (averaged), `totalRequests = 300` (summed)
and `workerCount = 2`. -/
theorem claim_C4 (now : ℤ) (base : MetricsSnapshot) (w1 w2 : WorkerRecord)
    (h1rps : w1.metrics.rps = 10) (h1cpu : w1.metrics.cpu = 20)
    (h1tot : w1.metrics.totalRequests = 100)
    (h2rps : w2.metrics.rps = 20) (h2cpu : w2.metrics.cpu = 10)
    (h2tot : w2.metrics.totalRequests = 200)
    (hf1 : now - w1.lastUpdate ≤ workerTimeoutMs)
    (hf2 : now - w2.lastUpdate ≤ workerTimeoutMs) :
    (aggregateMetrics now [w1, w2] base).rps = 30 ∧
      (aggregateMetrics now [w1, w2] base).cpu = 15 ∧
      (aggregateMetrics now [w1, w2] base).totalRequests = 300 ∧
      (aggregateMetrics now [w1, w2] base).workerCount = 2 := by
  have hclean : cleanupStaleWorkers now [w1, w2] = [w1, w2] := by
    simp only [cleanupStaleWorkers, List.filter_cons, List.filter_nil,
      decide_eq_true_eq]
    rw [if_pos hf1, if_pos hf2]
  refine ⟨?_, ?_, ?_, ?_⟩ <;>
    simp [aggregateMetrics, hclean, h1rps, h2rps, h1cpu, h2cpu, h1tot, h2tot,
      jsRound1, jsRound] <;> norm_num

lemma dropWhile_append_cutoff (cutoff : ℤ) (q : MetricDataPoint)
    (hq : cutoff ≤ q.timestamp) :
    ∀ (l : List MetricDataPoint),
      l.Pairwise (fun a b => a.timestamp ≤ b.timestamp) →
      ∀ p ∈ (l ++ [q]).dropWhile (fun x => decide (x.timestamp < cutoff)),
        cutoff ≤ p.timestamp := by
  intro l
  induction l with
  | nil =>
    intro _ p hp
    simp only [List.nil_append, List.dropWhile_cons, List.dropWhile_nil] at hp
    by_cases hqc : q.timestamp < cutoff
    · simp [hqc] at hp
    · simp [hqc] at hp
      rw [hp]
      exact hq
  | cons a l ih =>
    intro hpw p hp
    obtain ⟨ha, hpw'⟩ := List.pairwise_cons.mp hpw
    rw [List.cons_append, List.dropWhile_cons] at hp
    by_cases hac : a.timestamp < cutoff
    · simp only [decide_eq_true_eq, hac, if_true] at hp
      exact ih hpw' p hp
    · simp only [decide_eq_true_eq, hac, if_false] at hp
      rcases List.mem_cons.mp hp with rfl | hp'
      · exact not_lt.mp hac
      · rcases List.mem_append.mp hp' with hmem | hmem
        · exact le_trans (not_lt.mp hac) (ha p hmem)
        · rw [List.mem_singleton.mp hmem]
          exact hq

/-- C6: after any `addToHistory`, every retained point of the series has a
timestamp at least `now - retentionSeconds * 1000`, provided the series had
non-decreasing timestamps before the insert (which holds by construction for
an append-only series stamped with the current time). -/
theorem claim_C6 (retentionSeconds : ℕ) (now : ℤ)
    (history : List MetricDataPoint) (value : ℚ)
    (hsorted : history.Pairwise (fun a b => a.timestamp ≤ b.timestamp)) :
    ∀ p ∈ addToHistory retentionSeconds now history value,
      now - (retentionSeconds : ℤ) * 1000 ≤ p.timestamp := by
  intro p hp
  have hq : now - (retentionSeconds : ℤ) * 1000 ≤
      (⟨now, value⟩ : MetricDataPoint).timestamp := by
    show now - (retentionSeconds : ℤ) * 1000 ≤ now
    omega
  exact dropWhile_append_cutoff (now - (retentionSeconds : ℤ) * 1000)
    ⟨now, value⟩ hq history hsorted p hp

theorem claim_C6_witness :
    ([⟨99500, 1⟩, ⟨99700, 3⟩] : List MetricDataPoint).Pairwise
        (fun a b => a.timestamp ≤ b.timestamp) ∧
      ∀ p ∈ addToHistory 60 100000 [⟨99500, 1⟩, ⟨99700, 3⟩] 2,
        (100000 : ℤ) - (60 : ℕ) * 1000 ≤ p.timestamp :=
  ⟨by decide, claim_C6 60 100000 [⟨99500, 1⟩, ⟨99700, 3⟩] 2 (by decide)⟩

lemma jsRound2_mono {a b : ℚ} (h : a ≤ b) : jsRound2 a ≤ jsRound2 b := by
  unfold jsRound2 jsRound
  have h1 : ⌊a * 100 + 1/2⌋ ≤ ⌊b * 100 + 1/2⌋ := Int.floor_le_floor (by linarith)
  have h2 : ((⌊a * 100 + 1/2⌋ : ℤ) : ℚ) ≤ ((⌊b * 100 + 1/2⌋ : ℤ) : ℚ) := by
    exact_mod_cast h1
  linarith

lemma sorted_getD_mono {l : List ℚ} (hs : l.Sorted (· ≤ ·)) {i j : ℕ}
    (hij : i ≤ j) (hj : j < l.length) : l.getD i 0 ≤ l.getD j 0 := by
  have hi : i < l.length := lt_of_le_of_lt hij hj
  rw [List.getD_eq_getElem l 0 hi, List.getD_eq_getElem l 0 hj]
  have hab : (⟨i, hi⟩ : Fin l.length) ≤ ⟨j, hj⟩ := hij
  have := hs.rel_get_of_le hab
  simpa using this

/-- C5: on every non-empty sample buffer, the percentile computation yields
`p50 ≤ p95 ≤ p99`. -/
theorem claim_C5 (samples : List ℚ) (h : samples ≠ []) :
    (calculatePercentiles samples).p50 ≤ (calculatePercentiles samples).p95 ∧
      (calculatePercentiles samples).p95 ≤ (calculatePercentiles samples).p99 := by
  have hlen0 : ¬ samples.length = 0 := by
    simpa [List.length_eq_zero] using h
  have hsorted : (samples.insertionSort (· ≤ ·)).Sorted (· ≤ ·) :=
    List.sorted_insertionSort _ _
  have hsl : (samples.insertionSort (· ≤ ·)).length = samples.length :=
    List.length_insertionSort _ _
  set len := (samples.insertionSort (· ≤ ·)).length with hlen_def
  have hpos : 0 < len := by omega
  have hcast : (0 : ℚ) ≤ (len : ℚ) := Nat.cast_nonneg len
  have hposQ : (0 : ℚ) < (len : ℚ) := by exact_mod_cast hpos
  have hi50le95 : ⌊(len : ℚ) * 0.5⌋₊ ≤ ⌊(len : ℚ) * 0.95⌋₊ :=
    Nat.floor_le_floor (by nlinarith)
  have hi95lt : ⌊(len : ℚ) * 0.95⌋₊ < len := by
    have harg : (len : ℚ) * 0.95 < (len : ℚ) := by nlinarith
    have := (Nat.floor_lt (by positivity)).mpr harg
    simpa using this
  have hi95le99c : ⌊(len : ℚ) * 0.95⌋₊ ≤ min ⌊(len : ℚ) * 0.99⌋₊ (len - 1) := by
    refine le_min (Nat.floor_le_floor (by nlinarith)) ?_
    omega
  have hi99clt : min ⌊(len : ℚ) * 0.99⌋₊ (len - 1) < len := by omega
  simp only [calculatePercentiles, hlen0, if_false]
  refine ⟨jsRound2_mono (sorted_getD_mono hsorted hi50le95 hi95lt),
    jsRound2_mono (sorted_getD_mono hsorted hi95le99c hi99clt)⟩

theorem claim_C5_witness :
    ([3, 1, 2] : List ℚ) ≠ [] ∧
      ((calculatePercentiles [3, 1, 2]).p50 ≤ (calculatePercentiles [3, 1, 2]).p95 ∧
        (calculatePercentiles [3, 1, 2]).p95 ≤ (calculatePercentiles [3, 1, 2]).p99) :=
  ⟨by decide, claim_C5 [3, 1, 2] (by decide)⟩

lemma lookupAssoc_update_self {κ β : Type} [DecidableEq κ]
    (l : List (κ × β)) (k : κ) (f : β → β) :
    lookupAssoc (updateAssoc l k f) k = (lookupAssoc l k).map f := by
  induction l with
  | nil => rfl
  | cons hd tl ih =>
    obtain ⟨k', v⟩ := hd
    by_cases hk : k' = k
    · simp [updateAssoc, lookupAssoc, hk]
    · simp [updateAssoc, lookupAssoc, hk, ih]

lemma lookupAssoc_update_ne {κ β : Type} [DecidableEq κ]
    (l : List (κ × β)) (k k' : κ) (f : β → β) (hne : k' ≠ k) :
    lookupAssoc (updateAssoc l k f) k' = lookupAssoc l k' := by
  induction l with
  | nil => rfl
  | cons hd tl ih =>
    obtain ⟨k₀, v⟩ := hd
    by_cases hk : k₀ = k
    · subst hk
      simp [updateAssoc, lookupAssoc, Ne.symm hne]
    · by_cases hk' : k₀ = k'
      · simp [updateAssoc, lookupAssoc, hk, hk', hne]
      · simp [updateAssoc, lookupAssoc, hk, hk', ih]

lemma lookupAssoc_append {κ β : Type} [DecidableEq κ]
    (l₁ l₂ : List (κ × β)) (k : κ) :
    lookupAssoc (l₁ ++ l₂) k =
      match lookupAssoc l₁ k with
      | some v => some v
      | none => lookupAssoc l₂ k := by
  induction l₁ with
  | nil => rfl
  | cons hd tl ih =>
    obtain ⟨k', v⟩ := hd
    by_cases hk : k' = k
    · simp [lookupAssoc, hk]
    · simp [lookupAssoc, hk, ih]

lemma mergeFold_lookup_some (k : String) :
    ∀ (rs : List RouteStats) (acc : List (String × RouteStats)) (e : RouteStats),
      lookupAssoc acc k = some e →
      lookupAssoc (rs.foldl mergeRouteInto acc) k =
        some ((rs.filter (fun r => decide (mergeKey r = k))).foldl combineRouteStats e) := by
  intro rs
  induction rs with
  | nil => intro acc e h; simpa using h
  | cons r rs ih =>
    intro acc e h
    simp only [List.foldl_cons, List.filter_cons]
    by_cases hk : mergeKey r = k
    · subst hk
      have hacc : lookupAssoc acc (mergeKey r) = some e := h
      rw [show mergeRouteInto acc r =
          updateAssoc acc (mergeKey r) (fun e => combineRouteStats e r) by
        simp only [mergeRouteInto, hacc]]
      have hupd : lookupAssoc
          (updateAssoc acc (mergeKey r) (fun e => combineRouteStats e r)) (mergeKey r) =
          some (combineRouteStats e r) := by
        rw [lookupAssoc_update_self, hacc]
        rfl
      rw [ih _ _ hupd]
      simp
    · have hfilter : decide (mergeKey r = k) = false := by simpa using hk
      rw [hfilter]
      simp only [Bool.false_eq_true, if_false]
      have hacc' : lookupAssoc (mergeRouteInto acc r) k = some e := by
        simp only [mergeRouteInto]
        cases hmr : lookupAssoc acc (mergeKey r) with
        | some e' =>
          simp only []
          rw [lookupAssoc_update_ne _ _ _ _ (fun hkk => hk hkk.symm)]
          exact h
        | none =>
          simp only []
          rw [lookupAssoc_append]
          rw [h]
      exact ih _ _ hacc'

lemma mergeFold_lookup_none (k : String) :
    ∀ (rs : List RouteStats) (acc : List (String × RouteStats)),
      lookupAssoc acc k = none →
      lookupAssoc (rs.foldl mergeRouteInto acc) k =
        match rs.filter (fun r => decide (mergeKey r = k)) with
        | [] => none
        | f0 :: frest => some (frest.foldl combineRouteStats f0) := by
  intro rs
  induction rs with
  | nil => intro acc h; simpa using h
  | cons r rs ih =>
    intro acc h
    simp only [List.foldl_cons, List.filter_cons]
    by_cases hk : mergeKey r = k
    · subst hk
      have hacc : lookupAssoc acc (mergeKey r) = none := h
      rw [show mergeRouteInto acc r = acc ++ [(mergeKey r, r)] by
        simp only [mergeRouteInto, hacc]]
      have hupd : lookupAssoc (acc ++ [(mergeKey r, r)]) (mergeKey r) = some r := by
        rw [lookupAssoc_append, hacc]
        simp [lookupAssoc]
      rw [mergeFold_lookup_some _ _ _ _ hupd]
      simp
    · have hfilter : decide (mergeKey r = k) = false := by simpa using hk
      rw [hfilter]
      simp only [Bool.false_eq_true, if_false]
      have hacc' : lookupAssoc (mergeRouteInto acc r) k = none := by
        simp only [mergeRouteInto]
        cases hmr : lookupAssoc acc (mergeKey r) with
        | some e' =>
          simp only []
          rw [lookupAssoc_update_ne _ _ _ _ (fun hkk => hk hkk.symm)]
          exact h
        | none =>
          simp only []
          rw [lookupAssoc_append]
          rw [h]
          simp [lookupAssoc, hk]
      exact ih _ hacc'

lemma combineRouteStats_count (e r : RouteStats) :
    (combineRouteStats e r).count = e.count + r.count := rfl

lemma foldl_combine_count :
    ∀ (l : List RouteStats) (e : RouteStats),
      (l.foldl combineRouteStats e).count = e.count + (l.map (fun x => x.count)).sum := by
  intro l
  induction l with
  | nil => intro e; simp
  | cons r rs ih =>
    intro e
    simp only [List.foldl_cons, List.map_cons, List.sum_cons, ih,
      combineRouteStats_count]
    omega

lemma foldl_combine_totalTime :
    ∀ (l : List RouteStats) (e : RouteStats),
      (l.foldl combineRouteStats e).totalTime =
        e.totalTime + (l.map (fun x => x.totalTime)).sum := by
  intro l
  induction l with
  | nil => intro e; simp
  | cons r rs ih =>
    intro e
    simp only [List.foldl_cons, List.map_cons, List.sum_cons, ih]
    show e.totalTime + r.totalTime + _ = _
    ring

lemma foldl_combine_errors :
    ∀ (l : List RouteStats) (e : RouteStats),
      (l.foldl combineRouteStats e).errors = e.errors + (l.map (fun x => x.errors)).sum := by
  intro l
  induction l with
  | nil => intro e; simp
  | cons r rs ih =>
    intro e
    simp only [List.foldl_cons, List.map_cons, List.sum_cons, ih]
    show e.errors + r.errors + _ = _
    omega

lemma foldl_combine_minTime :
    ∀ (l : List RouteStats) (e : RouteStats),
      (l.foldl combineRouteStats e).minTime =
        (l.map (fun x => x.minTime)).foldl min e.minTime := by
  intro l
  induction l with
  | nil => intro e; simp
  | cons r rs ih =>
    intro e
    simp only [List.foldl_cons, List.map_cons, ih]
    rfl

lemma foldl_combine_maxTime :
    ∀ (l : List RouteStats) (e : RouteStats),
      (l.foldl combineRouteStats e).maxTime =
        (l.map (fun x => x.maxTime)).foldl max e.maxTime := by
  intro l
  induction l with
  | nil => intro e; simp
  | cons r rs ih =>
    intro e
    simp only [List.foldl_cons, List.map_cons, ih]
    rfl

lemma foldl_combine_lastAccess :
    ∀ (l : List RouteStats) (e : RouteStats),
      (l.foldl combineRouteStats e).lastAccess =
        (l.map (fun x => x.lastAccess)).foldl max e.lastAccess := by
  intro l
  induction l with
  | nil => intro e; simp
  | cons r rs ih =>
    intro e
    simp only [List.foldl_cons, List.map_cons, ih]
    rfl

lemma foldl_combine_avgTime :
    ∀ (l : List RouteStats) (e : RouteStats),
      e.avgTime = e.totalTime / (e.count : ℚ) →
      (l.foldl combineRouteStats e).avgTime =
        (l.foldl combineRouteStats e).totalTime /
          ((l.foldl combineRouteStats e).count : ℚ) := by
  intro l
  induction l with
  | nil => intro e h; simpa using h
  | cons r rs ih =>
    intro e _
    simp only [List.foldl_cons]
    exact ih (combineRouteStats e r) rfl

lemma foldl_min_le {α : Type} [LinearOrder α] :
    ∀ (l : List α) (b : α), l.foldl min b ≤ b ∧ ∀ x ∈ l, l.foldl min b ≤ x := by
  intro l
  induction l with
  | nil => intro b; exact ⟨le_refl b, by simp⟩
  | cons a l ih =>
    intro b
    simp only [List.foldl_cons]
    obtain ⟨h1, h2⟩ := ih (min b a)
    refine ⟨le_trans h1 (min_le_left b a), ?_⟩
    intro x hx
    rcases List.mem_cons.mp hx with rfl | hx'
    · exact le_trans h1 (min_le_right b x)
    · exact h2 x hx'

lemma le_foldl_max {α : Type} [LinearOrder α] :
    ∀ (l : List α) (b : α), b ≤ l.foldl max b ∧ ∀ x ∈ l, x ≤ l.foldl max b := by
  intro l
  induction l with
  | nil => intro b; exact ⟨le_refl b, by simp⟩
  | cons a l ih =>
    intro b
    simp only [List.foldl_cons]
    obtain ⟨h1, h2⟩ := ih (max b a)
    refine ⟨le_trans (le_max_left b a) h1, ?_⟩
    intro x hx
    rcases List.mem_cons.mp hx with rfl | hx'
    · exact le_trans (le_max_right b x) h1
    · exact h2 x hx'

lemma foldl_min_top_cons (a : WithTop ℚ) (l : List (WithTop ℚ)) :
    (a :: l).foldl min ⊤ = l.foldl min a := by
  simp only [List.foldl_cons]
  rw [min_eq_right (le_top : a ≤ ⊤)]

/-- C2: `aggregateMetrics` merges the route entries drawn from every active
worker's three ranked lists by the `method:path` key.  Each merged entry's
`count`, `totalTime` and `errors` are the sums over the occurrences with that
key, `minTime` is their minimum, `maxTime` and `lastAccess` their maxima, and
(given that every reported entry satisfies the `avgTime = totalTime / count`
invariant) `avgTime` is again `totalTime / count`.  The three output lists
are recomputed over the merged set: top by `count`, slowest among `count > 0`
by `avgTime`, most errors among `errors > 0` by `errors`, each capped at 10. -/
theorem claim_C2 (now : ℤ) (store : List WorkerRecord) (base : MetricsSnapshot)
    (havg : ∀ w ∈ cleanupStaleWorkers now store, ∀ r ∈ workerAllRoutes w,
      r.avgTime = r.totalTime / (r.count : ℚ))
    (hne : ¬ (cleanupStaleWorkers now store).length = 0) :
    (∀ k r,
      lookupAssoc (mergedRouteMap (cleanupStaleWorkers now store)) k = some r →
      ∃ f0 frest,
        (((cleanupStaleWorkers now store).map workerAllRoutes).flatten).filter
            (fun x => decide (mergeKey x = k)) = f0 :: frest ∧
        r.count = ((f0 :: frest).map (fun x => x.count)).sum ∧
        r.totalTime = ((f0 :: frest).map (fun x => x.totalTime)).sum ∧
        r.errors = ((f0 :: frest).map (fun x => x.errors)).sum ∧
        r.minTime = ((f0 :: frest).map (fun x => x.minTime)).foldl min ⊤ ∧
        r.maxTime = (frest.map (fun x => x.maxTime)).foldl max f0.maxTime ∧
        r.lastAccess = (frest.map (fun x => x.lastAccess)).foldl max f0.lastAccess ∧
        (∀ x ∈ f0 :: frest,
          r.minTime ≤ x.minTime ∧ x.maxTime ≤ r.maxTime ∧
            x.lastAccess ≤ r.lastAccess) ∧
        r.avgTime = r.totalTime / (r.count : ℚ)) ∧
      (aggregateMetrics now store base).topRoutes =
        (sortByCountDesc
          ((mergedRouteMap (cleanupStaleWorkers now store)).map (fun p => p.2))).take 10 ∧
      (aggregateMetrics now store base).slowestRoutes =
        (sortByAvgDesc
          ((sortByCountDesc
            ((mergedRouteMap (cleanupStaleWorkers now store)).map (fun p => p.2))).filter
              (fun r => decide (0 < r.count)))).take 10 ∧
      (aggregateMetrics now store base).errorRoutes =
        (sortByErrorsDesc
          ((sortByCountDesc
            ((mergedRouteMap (cleanupStaleWorkers now store)).map (fun p => p.2))).filter
              (fun r => decide (0 < r.errors)))).take 10 := by
  refine ⟨?_, ?_, ?_, ?_⟩
  · intro k r hr
    rw [mergedRouteMap, mergeFold_lookup_none k _ [] rfl] at hr
    cases hf : (((cleanupStaleWorkers now store).map workerAllRoutes).flatten).filter
        (fun x => decide (mergeKey x = k)) with
    | nil => rw [hf] at hr; cases hr
    | cons f0 frest =>
      rw [hf] at hr
      have hr' : r = frest.foldl combineRouteStats f0 := by
        cases hr
        rfl
      refine ⟨f0, frest, rfl, ?_, ?_, ?_, ?_, ?_, ?_, ?_, ?_⟩
      · rw [hr', foldl_combine_count]
        simp
      · rw [hr', foldl_combine_totalTime]
        simp
      · rw [hr', foldl_combine_errors]
        simp
      · rw [hr', foldl_combine_minTime, List.map_cons, foldl_min_top_cons]
      · rw [hr', foldl_combine_maxTime]
      · rw [hr', foldl_combine_lastAccess]
      · intro x hx
        have hminf : r.minTime = (frest.map (fun y => y.minTime)).foldl min f0.minTime := by
          rw [hr', foldl_combine_minTime]
        have hmaxf : r.maxTime = (frest.map (fun y => y.maxTime)).foldl max f0.maxTime := by
          rw [hr', foldl_combine_maxTime]
        have hlastf : r.lastAccess =
            (frest.map (fun y => y.lastAccess)).foldl max f0.lastAccess := by
          rw [hr', foldl_combine_lastAccess]
        rw [hminf, hmaxf, hlastf]
        rcases List.mem_cons.mp hx with rfl | hx'
        · exact ⟨(foldl_min_le _ _).1, (le_foldl_max _ _).1, (le_foldl_max _ _).1⟩
        · exact ⟨(foldl_min_le _ _).2 _ (List.mem_map_of_mem _ hx'),
            (le_foldl_max _ _).2 _ (List.mem_map_of_mem _ hx'),
            (le_foldl_max _ _).2 _ (List.mem_map_of_mem _ hx')⟩
      · have hf0mem : f0 ∈ (((cleanupStaleWorkers now store).map workerAllRoutes).flatten) := by
          have : f0 ∈ (((cleanupStaleWorkers now store).map workerAllRoutes).flatten).filter
              (fun x => decide (mergeKey x = k)) := by
            rw [hf]
            exact List.mem_cons_self _ _
          exact List.mem_of_mem_filter this
        obtain ⟨s, hs, hf0s⟩ := List.mem_flatten.mp hf0mem
        obtain ⟨w, hw, rfl⟩ := List.mem_map.mp hs
        have hf0avg : f0.avgTime = f0.totalTime / (f0.count : ℚ) := havg w hw f0 hf0s
        rw [hr']
        exact foldl_combine_avgTime frest f0 hf0avg
  · simp only [aggregateMetrics]
    rw [if_neg hne]
  · simp only [aggregateMetrics]
    rw [if_neg hne]
  · simp only [aggregateMetrics]
    rw [if_neg hne]

/-- A concrete reported route entry (avgTime = totalTime / count). -/
def sampleRouteA : RouteStats := ⟨"/api/a", "GET", 2, 10, 5, ((3 : ℚ) : WithTop ℚ), 7, 1, 50⟩

/-- A second concrete reported route entry with the same key. -/
def sampleRouteB : RouteStats := ⟨"/api/a", "GET", 4, 20, 5, ((2 : ℚ) : WithTop ℚ), 9, 2, 80⟩

/-- A fresh worker reporting `sampleRouteA` in its top list. -/
def sampleWorkerOne : WorkerRecord :=
  ⟨1, 11, { zeroWorkerMetrics with topRoutes := [sampleRouteA] }, emptyChartData, 100⟩

/-- A fresh worker reporting `sampleRouteB` in its top list. -/
def sampleWorkerTwo : WorkerRecord :=
  ⟨2, 12, { zeroWorkerMetrics with topRoutes := [sampleRouteB] }, emptyChartData, 100⟩

theorem claim_C2_witness :
    (∀ w ∈ cleanupStaleWorkers 200 [sampleWorkerOne, sampleWorkerTwo],
      ∀ r ∈ workerAllRoutes w, r.avgTime = r.totalTime / (r.count : ℚ)) ∧
      ¬ (cleanupStaleWorkers 200 [sampleWorkerOne, sampleWorkerTwo]).length = 0 ∧
      ((∀ k r,
        lookupAssoc
          (mergedRouteMap (cleanupStaleWorkers 200 [sampleWorkerOne, sampleWorkerTwo]))
          k = some r →
        ∃ f0 frest,
          (((cleanupStaleWorkers 200 [sampleWorkerOne, sampleWorkerTwo]).map
              workerAllRoutes).flatten).filter
              (fun x => decide (mergeKey x = k)) = f0 :: frest ∧
          r.count = ((f0 :: frest).map (fun x => x.count)).sum ∧
          r.totalTime = ((f0 :: frest).map (fun x => x.totalTime)).sum ∧
          r.errors = ((f0 :: frest).map (fun x => x.errors)).sum ∧
          r.minTime = ((f0 :: frest).map (fun x => x.minTime)).foldl min ⊤ ∧
          r.maxTime = (frest.map (fun x => x.maxTime)).foldl max f0.maxTime ∧
          r.lastAccess = (frest.map (fun x => x.lastAccess)).foldl max f0.lastAccess ∧
          (∀ x ∈ f0 :: frest,
            r.minTime ≤ x.minTime ∧ x.maxTime ≤ r.maxTime ∧
              x.lastAccess ≤ r.lastAccess) ∧
          r.avgTime = r.totalTime / (r.count : ℚ)) ∧
        (aggregateMetrics 200 [sampleWorkerOne, sampleWorkerTwo] sampleSnapshot).topRoutes =
          (sortByCountDesc
            ((mergedRouteMap
              (cleanupStaleWorkers 200 [sampleWorkerOne, sampleWorkerTwo])).map
                (fun p => p.2))).take 10 ∧
        (aggregateMetrics 200 [sampleWorkerOne, sampleWorkerTwo] sampleSnapshot).slowestRoutes =
          (sortByAvgDesc
            ((sortByCountDesc
              ((mergedRouteMap
                (cleanupStaleWorkers 200 [sampleWorkerOne, sampleWorkerTwo])).map
                  (fun p => p.2))).filter
                (fun r => decide (0 < r.count)))).take 10 ∧
        (aggregateMetrics 200 [sampleWorkerOne, sampleWorkerTwo] sampleSnapshot).errorRoutes =
          (sortByErrorsDesc
            ((sortByCountDesc
              ((mergedRouteMap
                (cleanupStaleWorkers 200 [sampleWorkerOne, sampleWorkerTwo])).map
                  (fun p => p.2))).filter
                (fun r => decide (0 < r.errors)))).take 10) := by
  have havg : ∀ w ∈ cleanupStaleWorkers 200 [sampleWorkerOne, sampleWorkerTwo],
      ∀ r ∈ workerAllRoutes w, r.avgTime = r.totalTime / (r.count : ℚ) := by
    have h : cleanupStaleWorkers 200 [sampleWorkerOne, sampleWorkerTwo] =
        [sampleWorkerOne, sampleWorkerTwo] := by decide
    rw [h]
    intro w hw r hr
    rcases List.mem_cons.mp hw with rfl | hw'
    · simp only [workerAllRoutes, sampleWorkerOne, zeroWorkerMetrics,
        List.append_nil, List.mem_singleton] at hr
      subst hr
      norm_num [sampleRouteA]
    · have hw2 : w = sampleWorkerTwo := List.mem_singleton.mp hw'
      subst hw2
      simp only [workerAllRoutes, sampleWorkerTwo, zeroWorkerMetrics,
        List.append_nil, List.mem_singleton] at hr
      subst hr
      norm_num [sampleRouteB]
  exact ⟨havg, by decide,
    claim_C2 200 [sampleWorkerOne, sampleWorkerTwo] sampleSnapshot
      havg (by decide)⟩

/-- A fresh worker reporting rps 10, cpu 20, totalRequests 100. -/
def sampleWorkerLoadOne : WorkerRecord :=
  ⟨1, 21, { zeroWorkerMetrics with rps := 10, cpu := 20, totalRequests := 100 },
   emptyChartData, 100⟩

/-- A fresh worker reporting rps 20, cpu 10, totalRequests 200. -/
def sampleWorkerLoadTwo : WorkerRecord :=
  ⟨2, 22, { zeroWorkerMetrics with rps := 20, cpu := 10, totalRequests := 200 },
   emptyChartData, 100⟩

theorem claim_C4_witness :
    sampleWorkerLoadOne.metrics.rps = 10 ∧
      sampleWorkerLoadOne.metrics.cpu = 20 ∧
      sampleWorkerLoadOne.metrics.totalRequests = 100 ∧
      sampleWorkerLoadTwo.metrics.rps = 20 ∧
      sampleWorkerLoadTwo.metrics.cpu = 10 ∧
      sampleWorkerLoadTwo.metrics.totalRequests = 200 ∧
      (200 : ℤ) - sampleWorkerLoadOne.lastUpdate ≤ workerTimeoutMs ∧
      (200 : ℤ) - sampleWorkerLoadTwo.lastUpdate ≤ workerTimeoutMs ∧
      ((aggregateMetrics 200 [sampleWorkerLoadOne, sampleWorkerLoadTwo]
          sampleSnapshot).rps = 30 ∧
        (aggregateMetrics 200 [sampleWorkerLoadOne, sampleWorkerLoadTwo]
          sampleSnapshot).cpu = 15 ∧
        (aggregateMetrics 200 [sampleWorkerLoadOne, sampleWorkerLoadTwo]
          sampleSnapshot).totalRequests = 300 ∧
        (aggregateMetrics 200 [sampleWorkerLoadOne, sampleWorkerLoadTwo]
          sampleSnapshot).workerCount = 2) :=
  ⟨rfl, rfl, rfl, rfl, rfl, rfl, by decide, by decide,
   claim_C4 200 sampleSnapshot sampleWorkerLoadOne sampleWorkerLoadTwo
     rfl rfl rfl rfl rfl rfl (by decide) (by decide)⟩

/-- A character of the case-insensitive class `[0-9a-f]`. -/
def isHexChar (c : Char) : Bool :=
  c.isDigit || ('a' ≤ c && c ≤ 'f') || ('A' ≤ c && c ≤ 'F')

/-- Consume exactly `n` hex characters from the front. -/
def matchHexRun : ℕ → List Char → Option (List Char)
  | 0, l => some l
  | _ + 1, [] => none
  | n + 1, c :: cs => if isHexChar c then matchHexRun n cs else none

/-- Consume a literal dash from the front. -/
def matchDash : List Char → Option (List Char)
  | c :: cs => if c = '-' then some cs else none
  | [] => none

/-- Match the UUID shape `8-4-4-4-12` (hex, case-insensitive) at the front,
returning the remainder. -/
def matchUUID (l : List Char) : Option (List Char) :=
  (matchHexRun 8 l).bind fun l1 =>
    (matchDash l1).bind fun l2 =>
      (matchHexRun 4 l2).bind fun l3 =>
        (matchDash l3).bind fun l4 =>
          (matchHexRun 4 l4).bind fun l5 =>
            (matchDash l5).bind fun l6 =>
              (matchHexRun 4 l6).bind fun l7 =>
                (matchDash l7).bind fun l8 =>
                  matchHexRun 12 l8

lemma matchHexRun_length :
    ∀ (n : ℕ) (l l' : List Char), matchHexRun n l = some l' →
      l'.length + n = l.length := by
  intro n
  induction n with
  | zero =>
    intro l l' h
    simp only [matchHexRun] at h
    cases h
    simp
  | succ n ih =>
    intro l l' h
    cases l with
    | nil => simp [matchHexRun] at h
    | cons c cs =>
      simp only [matchHexRun] at h
      by_cases hc : isHexChar c
      · rw [if_pos hc] at h
        have := ih cs l' h
        simp only [List.length_cons]
        omega
      · rw [if_neg hc] at h
        cases h

lemma matchDash_length {l l' : List Char} (h : matchDash l = some l') :
    l'.length + 1 = l.length := by
  cases l with
  | nil => simp [matchDash] at h
  | cons c cs =>
    simp only [matchDash] at h
    by_cases hc : c = '-'
    · rw [if_pos hc] at h
      cases h
      simp
    · rw [if_neg hc] at h
      cases h

lemma matchUUID_length {l l' : List Char} (h : matchUUID l = some l') :
    l'.length + 36 = l.length := by
  unfold matchUUID at h
  cases h1 : matchHexRun 8 l with
  | none => rw [h1] at h; cases h
  | some l1 =>
    rw [h1, Option.some_bind] at h
    cases h2 : matchDash l1 with
    | none => rw [h2] at h; cases h
    | some l2 =>
      rw [h2, Option.some_bind] at h
      cases h3 : matchHexRun 4 l2 with
      | none => rw [h3] at h; cases h
      | some l3 =>
        rw [h3, Option.some_bind] at h
        cases h4 : matchDash l3 with
        | none => rw [h4] at h; cases h
        | some l4 =>
          rw [h4, Option.some_bind] at h
          cases h5 : matchHexRun 4 l4 with
          | none => rw [h5] at h; cases h
          | some l5 =>
            rw [h5, Option.some_bind] at h
            cases h6 : matchDash l5 with
            | none => rw [h6] at h; cases h
            | some l6 =>
              rw [h6, Option.some_bind] at h
              cases h7 : matchHexRun 4 l6 with
              | none => rw [h7] at h; cases h
              | some l7 =>
                rw [h7, Option.some_bind] at h
                cases h8 : matchDash l7 with
                | none => rw [h8] at h; cases h
                | some l8 =>
                  rw [h8, Option.some_bind] at h
                  have e1 := matchHexRun_length 8 l l1 h1
                  have e2 := matchDash_length h2
                  have e3 := matchHexRun_length 4 l2 l3 h3
                  have e4 := matchDash_length h4
                  have e5 := matchHexRun_length 4 l4 l5 h5
                  have e6 := matchDash_length h6
                  have e7 := matchHexRun_length 4 l6 l7 h7
                  have e8 := matchDash_length h8
                  have e9 := matchHexRun_length 12 l8 l' h
                  omega

/-- The global replacement pass of `/[0-9a-f]{8}-....-[0-9a-f]{12}/gi` with
`':uuid'`: scan left to right, replacing each leftmost match and continuing
after it. -/
def scanUUID (l : List Char) : List Char :=
  match l with
  | [] => []
  | c :: cs =>
    match _h : matchUUID (c :: cs) with
    | some rest => ':' :: 'u' :: 'u' :: 'i' :: 'd' :: scanUUID rest
    | none => c :: scanUUID cs
termination_by l.length
decreasing_by
  · have hlen := matchUUID_length _h
    simp only [List.length_cons] at hlen ⊢
    omega
  · simp only [List.length_cons]
    omega

/-- The global replacement pass of `/[0-9a-f]{24}/gi` with `':id'`. -/
def scan24 (l : List Char) : List Char :=
  match l with
  | [] => []
  | c :: cs =>
    match _h : matchHexRun 24 (c :: cs) with
    | some rest => ':' :: 'i' :: 'd' :: scan24 rest
    | none => c :: scan24 cs
termination_by l.length
decreasing_by
  · have hlen := matchHexRun_length 24 _ _ _h
    simp only [List.length_cons] at hlen ⊢
    omega
  · simp only [List.length_cons]
    omega

/-- The global replacement pass of `/\/\d+/g` with `'/:id'`: a slash followed
by a maximal digit run collapses to `/:id`. -/
def scanDigits (l : List Char) : List Char :=
  match l with
  | [] => []
  | c :: cs =>
    if c = '/' ∧ cs.takeWhile Char.isDigit ≠ [] then
      '/' :: ':' :: 'i' :: 'd' :: scanDigits (cs.dropWhile Char.isDigit)
    else c :: scanDigits cs
termination_by l.length
decreasing_by
  · have hd : (cs.dropWhile Char.isDigit).length ≤ cs.length :=
      (List.dropWhile_sublist _).length_le
    simp only [List.length_cons]
    omega
  · simp only [List.length_cons]
    omega

/-- JavaScript `String.prototype.split('/')`. -/
def splitSlash : List Char → List (List Char)
  | [] => [[]]
  | c :: cs =>
    if c = '/' then [] :: splitSlash cs
    else
      match splitSlash cs with
      | [] => [[c]]
      | g :: gs => (c :: g) :: gs

/-- JavaScript `Array.prototype.join('/')`. -/
def joinSlash (chunks : List (List Char)) : List Char :=
  List.intercalate ['/'] chunks

/-- `defaultNormalizePath` from the core metrics service: replace UUID
matches with `:uuid`, 24-hex matches with `:id`, slash-digit runs with
`/:id`, then `split('/').slice(0, 4).join('/')`. -/
def defaultNormalizePath (path : String) : String :=
  ⟨joinSlash ((splitSlash (scanDigits (scan24 (scanUUID path.data)))).take 4)⟩

/-- Whether a whole segment is exactly UUID-shaped (spec-side notion). -/
def isUUIDSegment (seg : List Char) : Bool :=
  match matchUUID seg with
  | some [] => true
  | _ => false

/-- Whether a whole segment is exactly 24 hex characters (spec-side notion). -/
def isHex24Segment (seg : List Char) : Bool :=
  seg.length == 24 && seg.all isHexChar

/-- Whether a whole segment is purely numeric and non-empty (spec-side
notion). -/
def isNumericSegment (seg : List Char) : Bool :=
  !seg.isEmpty && seg.all Char.isDigit

/-- Modelled from the claim's words: replace UUID-shaped and 24-hex
segments with placeholder tokens and purely numeric segments with a
placeholder, leaving all other segments unchanged. -/
def claimSegmentMap (seg : List Char) : List Char :=
  if isUUIDSegment seg then (":uuid").data
  else if isHex24Segment seg then (":id").data
  else if isNumericSegment seg then (":id").data
  else seg

/-- Modelled from the claim's words: the normalizer described by the spec
sentence — whole-segment replacement of UUID / 24-hex / purely numeric
segments, then truncation to the first 4 segments. -/
def claimNormalizePath (path : String) : String :=
  ⟨joinSlash (((splitSlash path.data).map claimSegmentMap).take 4)⟩

/-- The digit-replacement stage described segment-wise: a maximal digit run
at the start of a segment other than the first (i.e. immediately following a
slash) is replaced by `:id`; the first segment is never preceded by a slash
and is left alone. -/
def stripLeadingDigits (seg : List Char) : List Char :=
  if seg.takeWhile Char.isDigit ≠ [] then
    ':' :: 'i' :: 'd' :: seg.dropWhile Char.isDigit
  else seg

/-- Apply `stripLeadingDigits` to every segment after the first. -/
def digitStageChunks : List (List Char) → List (List Char)
  | [] => []
  | c0 :: rest => c0 :: rest.map stripLeadingDigits

/-- The amended description of the default normalizer: UUID-shaped and
24-hex substrings anywhere in the path are replaced by placeholder tokens;
each maximal digit run immediately following a slash (even inside a longer
segment) is replaced by `:id`, described segment-wise; the result is
truncated to its first 4 slash-separated segments. -/
def amendedNormalizePath (path : String) : String :=
  ⟨joinSlash ((digitStageChunks (splitSlash (scan24 (scanUUID path.data)))).take 4)⟩

/-- C8 counterexample: on the path `/a/123x` the code's normalizer rewrites
the digit run inside the non-numeric segment `123x`, producing `/a/:idx`,
while the claim's whole-segment description leaves the path unchanged. -/
theorem claim_C8_counterexample :
    defaultNormalizePath "/a/123x" = "/a/:idx" ∧
      claimNormalizePath "/a/123x" = "/a/123x" ∧
      defaultNormalizePath "/a/123x" ≠ claimNormalizePath "/a/123x" := by
  refine ⟨?_, ?_, ?_⟩
  · show String.mk _ = _
    simp +decide [defaultNormalizePath, scanUUID, scan24, scanDigits, splitSlash,
      joinSlash, matchUUID, matchHexRun, matchDash, isHexChar, List.intercalate]
  · show String.mk _ = _
    simp +decide [claimNormalizePath, splitSlash, joinSlash, claimSegmentMap,
      isUUIDSegment, isHex24Segment, isNumericSegment, matchUUID, matchHexRun,
      matchDash, isHexChar, List.intercalate]
  · have h1 : defaultNormalizePath "/a/123x" = "/a/:idx" := by
      show String.mk _ = _
      simp +decide [defaultNormalizePath, scanUUID, scan24, scanDigits, splitSlash,
        joinSlash, matchUUID, matchHexRun, matchDash, isHexChar, List.intercalate]
    have h2 : claimNormalizePath "/a/123x" = "/a/123x" := by
      show String.mk _ = _
      simp +decide [claimNormalizePath, splitSlash, joinSlash, claimSegmentMap,
        isUUIDSegment, isHex24Segment, isNumericSegment, matchUUID, matchHexRun,
        matchDash, isHexChar, List.intercalate]
    rw [h1, h2]
    decide

lemma splitSlash_ne_nil : ∀ (l : List Char), splitSlash l ≠ [] := by
  intro l
  cases l with
  | nil => simp [splitSlash]
  | cons c cs =>
    by_cases hc : c = '/'
    · simp [splitSlash, hc]
    · simp only [splitSlash, if_neg hc]
      cases splitSlash cs <;> simp

lemma splitSlash_cons_slash (cs : List Char) :
    splitSlash ('/' :: cs) = [] :: splitSlash cs := by
  simp [splitSlash]

lemma splitSlash_cons_ne (c : Char) (cs : List Char) (hc : ¬ c = '/')
    (g : List Char) (gs : List (List Char)) (hsp : splitSlash cs = g :: gs) :
    splitSlash (c :: cs) = (c :: g) :: gs := by
  simp only [splitSlash, if_neg hc, hsp]

lemma dropWhile_eq_self_of_takeWhile_nil {p : Char → Bool} {l : List Char}
    (h : l.takeWhile p = []) : l.dropWhile p = l := by
  cases l with
  | nil => rfl
  | cons a l =>
    by_cases ha : p a
    · simp [List.takeWhile_cons, ha] at h
    · simp [List.dropWhile_cons, ha]

lemma takeWhile_headChunk_nil {cs : List Char}
    (h : cs.takeWhile Char.isDigit = []) {g : List Char} {gs : List (List Char)}
    (hsp : splitSlash cs = g :: gs) : g.takeWhile Char.isDigit = [] := by
  cases cs with
  | nil =>
    simp only [splitSlash] at hsp
    cases hsp
    rfl
  | cons a cs' =>
    by_cases ha : a = '/'
    · subst ha
      rw [splitSlash_cons_slash] at hsp
      cases hsp
      rfl
    · have had : ¬ Char.isDigit a := by
        intro had
        simp [List.takeWhile_cons, had] at h
      cases hsp' : splitSlash cs' with
      | nil => exact absurd hsp' (splitSlash_ne_nil cs')
      | cons g' gs' =>
        rw [splitSlash_cons_ne a cs' ha g' gs' hsp'] at hsp
        cases hsp
        simp [List.takeWhile_cons, had]

lemma splitSlash_append_no_slash :
    ∀ (q : List Char), (∀ c ∈ q, ¬ c = '/') →
      ∀ {y g : List Char} {gs : List (List Char)},
        splitSlash y = g :: gs → splitSlash (q ++ y) = (q ++ g) :: gs := by
  intro q
  induction q with
  | nil => intro _ y g gs h; simpa using h
  | cons a q ih =>
    intro hall y g gs h
    have ha : ¬ a = '/' := hall a (List.mem_cons_self a q)
    have hq : ∀ c ∈ q, ¬ c = '/' := fun c hc => hall c (List.mem_cons_of_mem a hc)
    have ih' := ih hq h
    rw [List.cons_append, splitSlash_cons_ne a (q ++ y) ha (q ++ g) gs ih',
      List.cons_append]

lemma dropWhile_append_all {p : Char → Bool} :
    ∀ (q : List Char), (∀ c ∈ q, p c) →
      ∀ (l : List Char), (q ++ l).dropWhile p = l.dropWhile p := by
  intro q
  induction q with
  | nil => intro _ l; rfl
  | cons a q ih =>
    intro hall l
    have ha : p a := hall a (List.mem_cons_self a q)
    rw [List.cons_append, List.dropWhile_cons]
    simp only [ha, if_true]
    exact ih (fun c hc => hall c (List.mem_cons_of_mem a hc)) l

lemma takeWhile_append_ne_nil {q g : List Char} (hq : q ≠ [])
    (hall : ∀ c ∈ q, Char.isDigit c) :
    (q ++ g).takeWhile Char.isDigit ≠ [] := by
  cases q with
  | nil => exact absurd rfl hq
  | cons a q' =>
    have ha := hall a (List.mem_cons_self _ _)
    simp [List.takeWhile_cons, ha]

lemma takeWhile_dropWhile_nil {p : Char → Bool} :
    ∀ (l : List Char), (l.dropWhile p).takeWhile p = [] := by
  intro l
  induction l with
  | nil => rfl
  | cons a l ih =>
    by_cases ha : p a
    · simp only [List.dropWhile_cons, ha, if_true]
      exact ih
    · simp [List.dropWhile_cons, ha, List.takeWhile_cons]

lemma splitSlash_scanDigits :
    ∀ (x : List Char), splitSlash (scanDigits x) = digitStageChunks (splitSlash x) := by
  intro x
  induction x using scanDigits.induct with
  | case1 =>
    rw [scanDigits]
    rfl
  | case2 c cs hcond ih =>
    obtain ⟨hc, hne⟩ := hcond
    subst hc
    rw [scanDigits, if_pos ⟨rfl, hne⟩]
    cases hz : splitSlash (cs.dropWhile Char.isDigit) with
    | nil => exact absurd hz (splitSlash_ne_nil _)
    | cons g2 gs2 =>
      have hscan : splitSlash (scanDigits (cs.dropWhile Char.isDigit)) =
          g2 :: gs2.map stripLeadingDigits := by
        rw [ih, hz]
        rfl
      rw [splitSlash_cons_slash,
        splitSlash_cons_ne ':' _ (by decide) _ _
          (splitSlash_cons_ne 'i' _ (by decide) _ _
            (splitSlash_cons_ne 'd' _ (by decide) _ _ hscan))]
      have hcs : cs = cs.takeWhile Char.isDigit ++ cs.dropWhile Char.isDigit :=
        (List.takeWhile_append_dropWhile _ _).symm
      have hall : ∀ ch ∈ cs.takeWhile Char.isDigit, ¬ ch = '/' := by
        intro ch hmem hch
        have hd := List.mem_takeWhile_imp hmem
        subst hch
        exact absurd hd (by decide)
      have hsplit_cs : splitSlash cs =
          (cs.takeWhile Char.isDigit ++ g2) :: gs2 := by
        conv_lhs => rw [hcs]
        exact splitSlash_append_no_slash _ hall hz
      rw [splitSlash_cons_slash, hsplit_cs]
      have hstrip : stripLeadingDigits (cs.takeWhile Char.isDigit ++ g2) =
          ':' :: 'i' :: 'd' :: g2 := by
        unfold stripLeadingDigits
        rw [if_pos (takeWhile_append_ne_nil hne
          (fun ch hch => List.mem_takeWhile_imp hch))]
        rw [dropWhile_append_all _ (fun ch hch => List.mem_takeWhile_imp hch) g2]
        rw [dropWhile_eq_self_of_takeWhile_nil
          (takeWhile_headChunk_nil (takeWhile_dropWhile_nil cs) hz)]
      show _ = [] :: stripLeadingDigits (cs.takeWhile Char.isDigit ++ g2) ::
          gs2.map stripLeadingDigits
      rw [hstrip]
  | case3 c cs hcond ih =>
    rw [scanDigits, if_neg hcond]
    by_cases hc : c = '/'
    · subst hc
      have hne : cs.takeWhile Char.isDigit = [] := by
        by_contra hne
        exact hcond ⟨rfl, hne⟩
      rw [splitSlash_cons_slash, splitSlash_cons_slash, ih]
      cases hz : splitSlash cs with
      | nil => exact absurd hz (splitSlash_ne_nil cs)
      | cons g gs =>
        have hg : stripLeadingDigits g = g := by
          have hgtw : g.takeWhile Char.isDigit = [] :=
            takeWhile_headChunk_nil hne hz
          unfold stripLeadingDigits
          rw [if_neg (by simp [hgtw])]
        simp [digitStageChunks, hg]
    · cases hz : splitSlash cs with
      | nil => exact absurd hz (splitSlash_ne_nil cs)
      | cons g gs =>
        have hscan : splitSlash (scanDigits cs) = g :: gs.map stripLeadingDigits := by
          rw [ih, hz]
          rfl
        rw [splitSlash_cons_ne c _ hc _ _ hscan, splitSlash_cons_ne c _ hc _ _ hz]
        rfl

/-- C8 amended: for every path, the default normalizer equals the amended
description — UUID and 24-hex substrings replaced anywhere, each maximal
digit run at the start of a non-initial slash-separated segment replaced by
`:id`, then truncation to the first 4 segments. -/
theorem claim_C8_amended (path : String) :
    defaultNormalizePath path = amendedNormalizePath path := by
  unfold defaultNormalizePath amendedNormalizePath
  rw [splitSlash_scanDigits]
